import Mathlib

/-!
Verification of the nanostores context-isolation layer and the
`cleanStores` development helper.

The `cleanStores` definitions are a shallow embedding of
`src/clean-stores/index.js`.  The context layer (binding registry,
lifecycle event bus, task tracker, action dispatcher, serializer) has no
implementation file under `src/` — only its test suite — so those
definitions are modelled from the specification, as marked in their doc
comments.
-/

namespace Nanostores

/-! ## clean-stores (embedded from `src/clean-stores/index.js`) -/

/-- A store as seen by `cleanStores`: the test-only `mocked` marker and a
counter recording how many times the hidden `clean`-keyed reset capability
has been invoked (the capability itself is an external collaborator taking
no arguments). -/
structure CStore where
  mocked : Bool
  cleanCalls : Nat
  deriving DecidableEq, Repr

/-- Effect of one loop iteration of `cleanStores` on a truthy store:
`if (store.mocked) delete store.mocked` followed by `store[clean]()`. -/
def cleanOne (s : CStore) : CStore :=
  { s with mocked := false, cleanCalls := s.cleanCalls + 1 }

/-- `cleanStores(...stores)` from `src/clean-stores/index.js`.
`env` models `process.env.NODE_ENV`; a `none` entry models a falsy
argument (`if (store)` skips it).  The result is the post-call state of
every argument, or the thrown error message. -/
def cleanStores (env : String) (stores : List (Option CStore)) :
    Except String (List (Option CStore)) :=
  if env = "production" then
    .error "cleanStores() can be used only during development or tests"
  else
    .ok (stores.map (fun o => match o with
      | none => none
      | some s => some (cleanOne s)))

/-! ## Binding registry and contexts (modelled from the spec) -/

/-- Modelled from the spec: a Store Definition — the shared,
context-independent template `{ id, defaultValue, name? }` (the `compute`
field is irrelevant to the claims below).  The implementation file for the
context layer is absent from `src/`; only its tests are present. -/
structure StoreDef where
  sid : Nat
  defaultValue : Int
  name : Option String
  deriving DecidableEq, Repr

/-- Modelled from the spec: an action definition carries an identity and a
name tag. -/
structure ActionDef where
  aid : Nat
  aname : String
  deriving DecidableEq, Repr

/-- Association-list lookup keyed by `(store id, context id)`. -/
def assocFind {α : Type} : List ((Nat × Nat) × α) → (Nat × Nat) → Option α
  | [], _ => none
  | (k, v) :: r, k' => if k = k' then some v else assocFind r k'

/-- Modelled from the spec: the process-wide state of the context layer —
the two-level binding registry (outer key context handle, inner key store
definition identity, here flattened to pairs), the fresh-context counter,
the "some explicit context exists" flag behind invariant I3, the bound
instance allocation counter, and the per-binding current values. -/
structure World where
  nextCtx : Nat
  hasCtx : Bool
  nextInst : Nat
  insts : List ((Nat × Nat) × Nat)
  actInsts : List ((Nat × Nat) × Nat)
  vals : List ((Nat × Nat) × Int)
  deriving DecidableEq, Repr

/-- The initial process state: only the implicit default context (handle
`0`) exists, nothing is bound. -/
def initWorld : World :=
  { nextCtx := 1, hasCtx := false, nextInst := 0
    insts := [], actInsts := [], vals := [] }

/-- Modelled from the spec: `createContext()` allocates a fresh, empty
handle; from then on the process has an explicit context. -/
def createContext (w : World) : Nat × World :=
  (w.nextCtx, { w with nextCtx := w.nextCtx + 1, hasCtx := true })

/-- Modelled from the spec: the Binding Registry's memoized lookup
`bind(def, ctx)` — the first call materializes a Bound Instance (a fresh
allocation identity), later calls return the recorded one. -/
def bind (w : World) (d : StoreDef) (c : Nat) : Nat × World :=
  match assocFind w.insts (d.sid, c) with
  | some i => (i, w)
  | none =>
    (w.nextInst,
      { w with nextInst := w.nextInst + 1
               insts := ((d.sid, c), w.nextInst) :: w.insts })

/-- Modelled from the spec: the current value of the Bound Instance of `d`
under context `c`; a lazily-materialized (never written) binding reads the
definition's default value. -/
def valueOf (w : World) (d : StoreDef) (c : Nat) : Int :=
  (assocFind w.vals (d.sid, c)).getD d.defaultValue

/-- Modelled from the spec: write the Bound Instance's value (newest entry
shadows older ones). -/
def setValue (w : World) (sid c : Nat) (v : Int) : World :=
  { w with vals := ((sid, c), v) :: w.vals }

/-- Modelled from the spec: the context-scoped façade returned by
`withContext(store, ctx)` — it closes over the originating store identity,
context handle and bound-instance identity, so destructured functions keep
delegating to that binding. -/
structure Facade where
  sid : Nat
  ctx : Nat
  inst : Nat
  dflt : Int
  deriving DecidableEq, Repr

/-- Modelled from the spec: `withContext(store, ctx)` for store-like
inputs — memoized through the Binding Registry. -/
def withContextStore (w : World) (d : StoreDef) (c : Nat) : Facade × World :=
  let (i, w') := bind w d c
  ({ sid := d.sid, ctx := c, inst := i, dflt := d.defaultValue }, w')

/-- Modelled from the spec: the façade's `get`, usable after being
destructured — it reads the bound instance of its originating context. -/
def facadeGet (w : World) (f : Facade) : Int :=
  (assocFind w.vals (f.sid, f.ctx)).getD f.dflt

/-- Modelled from the spec: the façade's `set`, usable after being
destructured — it writes the bound instance of its originating context. -/
def facadeSet (w : World) (f : Facade) (v : Int) : World :=
  setValue w f.sid f.ctx v

/-- Modelled from the spec: `withContext(actionCallable, ctx)` — memoized
context-bound callable per `(action, ctx)` pair. -/
def withContextAction (w : World) (a : ActionDef) (c : Nat) : Nat × World :=
  match assocFind w.actInsts (a.aid, c) with
  | some i => (i, w)
  | none =>
    (w.nextInst,
      { w with nextInst := w.nextInst + 1
               actInsts := ((a.aid, c), w.nextInst) :: w.actInsts })

/-- Modelled from the spec: reading a store definition directly, with no
explicit context — succeeds against the implicit default instance
(handle `0`) until any explicit context exists, then raises the
ambiguous-context error. -/
def directGet (w : World) (d : StoreDef) : Except String Int :=
  if w.hasCtx then .error "ambiguous context: bind the store to a context"
  else .ok (valueOf w d 0)

/-- Modelled from the spec: writing a store definition directly, with no
explicit context. -/
def directSet (w : World) (d : StoreDef) (v : Int) : Except String World :=
  if w.hasCtx then .error "ambiguous context: bind the store to a context"
  else .ok (setValue w d.sid 0 v)

/-! ### Serializer (modelled from the spec) -/

/-- Modelled from the spec: whether the Bound Instance of `d` under `c`
currently exists (has been materialized through the registry). -/
def isBound (w : World) (d : StoreDef) (c : Nat) : Bool :=
  (assocFind w.insts (d.sid, c)).isSome

/-- Modelled from the spec: the snapshot entry one store definition
contributes — its name mapped to its current value when it is named and
currently bound, nothing otherwise. -/
def serEntry (w : World) (c : Nat) (d : StoreDef) : Option (String × Int) :=
  match d.name with
  | some n => if isBound w d c then some (n, valueOf w d c) else none
  | none => none

/-- Modelled from the spec: `serializeContext(ctx)` — walk the store
definitions and collect the named, currently-bound ones into a
name-to-value snapshot. -/
def serializeContext (defs : List StoreDef) (w : World) (c : Nat) :
    List (String × Int) :=
  defs.filterMap (serEntry w c)

/-- Modelled from the spec: restoring one snapshot entry — resolve the
store definition whose name matches the key, materialize its binding if
necessary, and set its value directly; a key with no matching named
definition is ignored without error. -/
def applyEntry (defs : List StoreDef) (c : Nat) (w : World)
    (e : String × Int) : World :=
  match defs.find? (fun d => d.name == some e.1) with
  | some d => setValue (bind w d c).2 d.sid c e.2
  | none => w

/-- Modelled from the spec: `applySerializedContext(ctx, snapshot)`. -/
def applySerializedContext (defs : List StoreDef) (w : World) (c : Nat)
    (snap : List (String × Int)) : World :=
  snap.foldl (applyEntry defs c) w

/-- Modelled from the spec: `resetContext(ctx?)` — restricted to
non-production runtime modes, failing loudly otherwise; with a handle it
discards every bound instance scoped to it, with no handle it does so for
every context. -/
def resetContext (env : String) (w : World) (c : Option Nat) :
    Except String World :=
  if env = "production" then
    .error "resetContext() can be used only during development or tests"
  else
    .ok (match c with
      | some c' =>
        { w with insts := w.insts.filter (fun kv => kv.1.2 != c')
                 actInsts := w.actInsts.filter (fun kv => kv.1.2 != c')
                 vals := w.vals.filter (fun kv => kv.1.2 != c') }
      | none => { w with insts := [], actInsts := [], vals := [] })

/-- A sample named store definition. -/
def sampleNamedDef : StoreDef := ⟨0, 0, some "serialized"⟩

/-- A sample unnamed (private, non-serializable) store definition. -/
def samplePrivateDef : StoreDef := ⟨1, 0, none⟩

/-- The sample definition registry. -/
def sampleDefs : List StoreDef := [sampleNamedDef, samplePrivateDef]

/-- A sample world: context 1 created, both sample stores bound under it,
and the named one set to 42. -/
def sampleWorld : World :=
  setValue
    (bind (bind (createContext initWorld).2 sampleNamedDef 1).2
      samplePrivateDef 1).2
    0 1 42

/-! ## Task tracker (modelled from the spec) -/

/-- Modelled from the spec: one bookkeeping event of the Task Tracker — a
`startTask`/`task` increment or an end-function decrement, each scoped to
a context handle.  A run of the process is a trace of such events; the
tracker's own bookkeeping is synchronous, so the trace is totally
ordered. -/
inductive TaskEv where
  | tstart (c : Nat)
  | tend (c : Nat)
  deriving DecidableEq, Repr

/-- The context a task event belongs to. -/
def ctxOfEv : TaskEv → Nat
  | .tstart c => c
  | .tend c => c

/-- Modelled from the spec: the Pending Task Entry counter for context `c`
after processing a trace, starting from `n` outstanding tasks; the
decrement saturates at zero (the counter must never go negative). -/
def counterFrom (c n : Nat) : List TaskEv → Nat
  | [] => n
  | .tstart c' :: r => counterFrom c (if c' = c then n + 1 else n) r
  | .tend c' :: r => counterFrom c (if c' = c then n - 1 else n) r

/-- The pending-task counter for `c` over a whole trace. -/
def counter (c : Nat) (tr : List TaskEv) : Nat := counterFrom c 0 tr

/-- Modelled from the spec: the wait loop of `allTasks` — starting the
check at instant `t`, return the first instant at which the counter of
`c` over the trace prefix is zero, re-checking after every event; `fuel`
bounds the search to the recorded trace. -/
def searchZero (tr : List TaskEv) (c : Nat) : Nat → Nat → Option Nat
  | t, 0 => if counter c (tr.take t) = 0 then some t else none
  | t, fuel + 1 =>
    if counter c (tr.take t) = 0 then some t
    else searchZero tr c (t + 1) fuel

/-- Modelled from the spec: the instant at which an `allTasks(c)` call
begun at instant `t0` resolves, within the recorded trace. -/
def allTasksResolveTime (tr : List TaskEv) (c t0 : Nat) : Option Nat :=
  if t0 ≤ tr.length then searchZero tr c t0 (tr.length - t0) else none

/-- The two-stage scenario of the `basic task work` test: taskA starts
under context 1; the drain begins; then, inside taskA's timer callback,
taskB starts under context 1, taskA ends, and finally taskB ends. -/
def scenarioTrace : List TaskEv :=
  [.tstart 1, .tstart 1, .tend 1, .tend 1]

/-! ## Lifecycle event bus (modelled from the spec) -/

/-- Modelled from the spec: the six lifecycle event kinds of the event
bus. -/
inductive EvKind where
  | mount
  | start
  | stop
  | setE
  | notifyE
  | actionE
  deriving DecidableEq, Repr

/-- Modelled from the spec: a registered lifecycle handler — its position
in the single global registration order, and the event kind it listens
to. -/
structure Handler where
  hid : Nat
  kind : EvKind
  deriving DecidableEq, Repr

/-- Modelled from the spec: one fired lifecycle event: which handler ran,
for which kind and context, what `lastAction` tag / action name it saw,
and the new value passed to `set`/`notify` handlers. -/
structure Ev where
  kind : EvKind
  hid : Nat
  ctx : Nat
  last : Option String
  newValue : Option Int
  deriving DecidableEq, Repr

/-- Modelled from the spec: fire every handler of kind `k`, in
registration order. -/
def fire (hs : List Handler) (k : EvKind) (c : Nat) (la : Option String)
    (nv : Option Int) : List Ev :=
  (hs.filter (fun h => h.kind == k)).map
    (fun h => { kind := k, hid := h.hid, ctx := c, last := la, newValue := nv })

/-- Modelled from the spec: the per-(definition, context) bound-instance
state relevant to lifecycle events: current value, subscriber count,
keep-mount pin, and the last-action tag. -/
structure BState where
  value : Int
  subs : Nat
  pinned : Bool
  lastAction : Option String
  deriving DecidableEq, Repr

/-- Mount-reference count: subscribers plus the pin. -/
def mountCount (s : BState) : Nat := s.subs + (if s.pinned then 1 else 0)

/-- Modelled from the spec: the events of a mount transition — all mount
handlers, then all start handlers, each segment in registration order. -/
def mountEvents (hs : List Handler) (c : Nat) (s : BState) : List Ev :=
  fire hs .mount c s.lastAction none ++ fire hs .start c s.lastAction none

/-- Modelled from the spec: adding a subscriber; the mount transition
fires only when the mount-reference count was zero. -/
def subscribeOp (hs : List Handler) (c : Nat) (s : BState) : BState × List Ev :=
  ({ s with subs := s.subs + 1 },
   if mountCount s = 0 then mountEvents hs c s else [])

/-- Modelled from the spec: `keepMount` pins the instance, firing the
mount transition when it was unmounted. -/
def keepMountOp (hs : List Handler) (c : Nat) (s : BState) : BState × List Ev :=
  ({ s with pinned := true },
   if mountCount s = 0 then mountEvents hs c s else [])

/-- Modelled from the spec: removing a subscriber; losing the last one
with no pin fires all stop handlers in registration order. -/
def unsubscribeOp (hs : List Handler) (c : Nat) (s : BState) : BState × List Ev :=
  ({ s with subs := s.subs - 1 },
   if s.subs = 1 ∧ s.pinned = false then fire hs .stop c s.lastAction none
   else [])

/-- Modelled from the spec: a value mutation — apply the value, fire all
set handlers, then all notify handlers, each in registration order, every
handler seeing the new value and the current last-action tag. -/
def setOp (hs : List Handler) (c : Nat) (v : Int) (s : BState) : BState × List Ev :=
  ({ s with value := v },
   fire hs .setE c s.lastAction (some v)
     ++ fire hs .notifyE c s.lastAction (some v))

/-- Modelled from the spec: dispatching a named action — fire all action
handlers tagged with the action's name, record the name as the
instance's last-action tag, then run the wrapped mutator, which sets the
value and so fires the set/notify sequence. -/
def actionOp (hs : List Handler) (c : Nat) (name : String) (v : Int)
    (s : BState) : BState × List Ev :=
  let aevs := fire hs .actionE c (some name) none
  let s1 := { s with lastAction := some name }
  let (s2, sevs) := setOp hs c v s1
  (s2, aevs ++ sevs)

/-- A sample handler registration list covering all six event kinds, used
to instantiate the lifecycle theorems on a concrete input. -/
def sampleHandlers : List Handler :=
  [⟨0, .mount⟩, ⟨1, .start⟩, ⟨2, .setE⟩, ⟨3, .notifyE⟩, ⟨4, .stop⟩,
   ⟨5, .actionE⟩, ⟨6, .mount⟩, ⟨7, .notifyE⟩]

/-- A sample unmounted bound-instance state. -/
def sampleState : BState := ⟨0, 0, false, none⟩

/-- Registration-order handler ids of kind `k`. -/
def regOrder (k : EvKind) (hs : List Handler) : List Nat :=
  (hs.filter (fun h => h.kind == k)).map Handler.hid

/-- Fired-order handler ids of kind `k`. -/
def evOrder (k : EvKind) (evs : List Ev) : List Nat :=
  (evs.filter (fun e => e.kind == k)).map Ev.hid

/-! ### Registry lemmas -/

theorem assocFind_cons_self {α : Type} (k : Nat × Nat) (v : α)
    (l : List ((Nat × Nat) × α)) : assocFind ((k, v) :: l) k = some v := by
  simp [assocFind]

theorem assocFind_cons_ne {α : Type} {k k' : Nat × Nat} (v : α)
    (l : List ((Nat × Nat) × α)) (h : k ≠ k') :
    assocFind ((k, v) :: l) k' = assocFind l k' := by
  simp [assocFind, h]

theorem valueOf_setValue_self (w : World) (d : StoreDef) (c : Nat) (v : Int) :
    valueOf (setValue w d.sid c v) d c = v := by
  simp [valueOf, setValue, assocFind_cons_self]

theorem valueOf_setValue_ne (w : World) (d : StoreDef) {sid c c' : Nat}
    (v : Int) (h : (sid, c) ≠ (d.sid, c')) :
    valueOf (setValue w sid c v) d c' = valueOf w d c' := by
  simp [valueOf, setValue, assocFind_cons_ne _ _ h]

theorem bind_bind (w : World) (d : StoreDef) (c : Nat) :
    bind (bind w d c).2 d c = bind w d c := by
  unfold bind
  cases h : assocFind w.insts (d.sid, c) with
  | some i => simp [h]
  | none => simp [h, assocFind_cons_self]

theorem withContextAction_idem (w : World) (a : ActionDef) (c : Nat) :
    withContextAction (withContextAction w a c).2 a c = withContextAction w a c := by
  unfold withContextAction
  cases h : assocFind w.actInsts (a.aid, c) with
  | some i => simp [h]
  | none => simp [h, assocFind_cons_self]

theorem bind_vals (w : World) (d : StoreDef) (c : Nat) :
    ((bind w d c).2).vals = w.vals := by
  unfold bind
  cases h : assocFind w.insts (d.sid, c) <;> simp [h]

theorem valueOf_of_vals_eq {w w' : World} (d : StoreDef) (c : Nat)
    (h : w'.vals = w.vals) : valueOf w' d c = valueOf w d c := by
  simp [valueOf, h]

theorem withContextStore_facade (w : World) (d : StoreDef) (c : Nat) :
    (withContextStore w d c).1.sid = d.sid
    ∧ (withContextStore w d c).1.ctx = c
    ∧ (withContextStore w d c).1.dflt = d.defaultValue := by
  simp [withContextStore]

/-- C1: binding a store definition to a context twice returns the identical
bound façade (same instance identity, world unchanged by the second call);
the façade's destructured `set`/`get` still read and write the bound
instance of the façade's originating context; and `withContext` applied
twice to the same (action, context) pair returns the identical bound
callable. -/
theorem identity_stability (w : World) (d : StoreDef) (a : ActionDef)
    (c : Nat) (v : Int) :
    withContextStore (withContextStore w d c).2 d c = withContextStore w d c
    ∧ withContextAction (withContextAction w a c).2 a c = withContextAction w a c
    ∧ facadeGet
        (facadeSet (withContextStore w d c).2 (withContextStore w d c).1 v)
        (withContextStore w d c).1 = v
    ∧ valueOf
        (facadeSet (withContextStore w d c).2 (withContextStore w d c).1 v)
        d c = v := by
  refine ⟨?_, withContextAction_idem w a c, ?_, ?_⟩
  · unfold withContextStore
    simp [bind_bind]
  · simp [facadeGet, facadeSet, setValue, assocFind_cons_self]
  · have hs := (withContextStore_facade w d c).1
    have hc := (withContextStore_facade w d c).2.1
    simp only [facadeSet, hs, hc]
    exact valueOf_setValue_self _ d c v

/-- C2: setting the value of the bound instance of `d` under context `c1`
(directly, or through the context façade) leaves the value of the bound
instance of `d` under a distinct context `c2` unchanged. -/
theorem context_independence (w : World) (d : StoreDef) {c1 c2 : Nat}
    (h : c1 ≠ c2) (v : Int) :
    valueOf (setValue w d.sid c1 v) d c2 = valueOf w d c2
    ∧ valueOf
        (facadeSet (withContextStore w d c1).2 (withContextStore w d c1).1 v)
        d c2 = valueOf w d c2 := by
  have hkey : (d.sid, c1) ≠ (d.sid, c2) := by
    intro he
    exact h (congrArg Prod.snd he)
  constructor
  · exact valueOf_setValue_ne w d v hkey
  · have hs := (withContextStore_facade w d c1).1
    have hc := (withContextStore_facade w d c1).2.1
    simp only [facadeSet, hs, hc]
    have h1 := valueOf_setValue_ne (withContextStore w d c1).2 d v hkey
    rw [setValue] at h1 ⊢
    rw [h1]
    exact valueOf_of_vals_eq d c2 (by simpa [withContextStore] using bind_vals w d c1)

theorem context_independence_witness :
    (1 : Nat) ≠ 2
    ∧ (valueOf (setValue initWorld 0 1 7) ⟨0, 0, none⟩ 2
         = valueOf initWorld ⟨0, 0, none⟩ 2
       ∧ valueOf
           (facadeSet (withContextStore initWorld ⟨0, 0, none⟩ 1).2
             (withContextStore initWorld ⟨0, 0, none⟩ 1).1 7)
           ⟨0, 0, none⟩ 2 = valueOf initWorld ⟨0, 0, none⟩ 2) :=
  ⟨by decide, context_independence initWorld ⟨0, 0, none⟩ (by decide) 7⟩

/-- C3: while no explicit context exists, direct reads and writes of a
store definition succeed against the implicit default instance (handle
`0`); the initial world reads the default value, and a direct write is
visible to a later direct read.  Creating a context flips the
`hasCtx` flag, after which direct reads and writes raise the
ambiguous-context error; the flag is never cleared by binding, writing or
creating further contexts, so the error persists for the process. -/
theorem ambiguous_context_error (w : World) (d : StoreDef) (v : Int)
    (sid c : Nat) (a : ActionDef) :
    (w.hasCtx = false →
      directGet w d = .ok (valueOf w d 0)
      ∧ directSet w d v = .ok (setValue w d.sid 0 v)
      ∧ directGet (setValue w d.sid 0 v) d = .ok v)
    ∧ directGet initWorld d = .ok d.defaultValue
    ∧ (createContext w).2.hasCtx = true
    ∧ (w.hasCtx = true →
        (∃ e, directGet w d = .error e) ∧ (∃ e, directSet w d v = .error e))
    ∧ (setValue w sid c v).hasCtx = w.hasCtx
    ∧ ((bind w d c).2).hasCtx = w.hasCtx
    ∧ ((withContextStore w d c).2).hasCtx = w.hasCtx
    ∧ ((withContextAction w a c).2).hasCtx = w.hasCtx := by
  refine ⟨?_, ?_, ?_, ?_, ?_, ?_, ?_, ?_⟩
  · intro h
    refine ⟨by simp [directGet, h], by simp [directSet, h], ?_⟩
    simp [directGet, setValue, h, valueOf, assocFind_cons_self]
  · simp [directGet, initWorld, valueOf, assocFind]
  · simp [createContext]
  · intro h
    exact ⟨⟨"ambiguous context: bind the store to a context",
             by simp [directGet, h]⟩,
           ⟨"ambiguous context: bind the store to a context",
             by simp [directSet, h]⟩⟩
  · simp [setValue]
  · unfold bind
    cases h : assocFind w.insts (d.sid, c) <;> simp [h]
  · unfold withContextStore bind
    cases h : assocFind w.insts (d.sid, c) <;> simp [h]
  · unfold withContextAction
    cases h : assocFind w.actInsts (a.aid, c) <;> simp [h]

theorem ambiguous_context_error_witness :
    (initWorld.hasCtx = false →
      directGet initWorld ⟨0, 5, none⟩ = .ok (valueOf initWorld ⟨0, 5, none⟩ 0)
      ∧ directSet initWorld ⟨0, 5, none⟩ 9
          = .ok (setValue initWorld (StoreDef.sid ⟨0, 5, none⟩) 0 9)
      ∧ directGet (setValue initWorld (StoreDef.sid ⟨0, 5, none⟩) 0 9)
          ⟨0, 5, none⟩ = .ok 9)
    ∧ directGet initWorld ⟨0, 5, none⟩ = .ok (StoreDef.defaultValue ⟨0, 5, none⟩)
    ∧ (createContext initWorld).2.hasCtx = true
    ∧ (initWorld.hasCtx = true →
        (∃ e, directGet initWorld ⟨0, 5, none⟩ = .error e)
        ∧ (∃ e, directSet initWorld ⟨0, 5, none⟩ 9 = .error e))
    ∧ (setValue initWorld 0 1 9).hasCtx = initWorld.hasCtx
    ∧ ((bind initWorld ⟨0, 5, none⟩ 1).2).hasCtx = initWorld.hasCtx
    ∧ ((withContextStore initWorld ⟨0, 5, none⟩ 1).2).hasCtx = initWorld.hasCtx
    ∧ ((withContextAction initWorld ⟨3, "n"⟩ 1).2).hasCtx = initWorld.hasCtx :=
  ambiguous_context_error initWorld ⟨0, 5, none⟩ 9 0 1 ⟨3, "n"⟩

theorem searchZero_some {tr : List TaskEv} {c : Nat} :
    ∀ {fuel t u : Nat}, searchZero tr c t fuel = some u →
      counter c (tr.take u) = 0 ∧ t ≤ u
      ∧ ∀ t', t ≤ t' → t' < u → counter c (tr.take t') ≠ 0 := by
  intro fuel
  induction fuel with
  | zero =>
    intro t u h
    rw [searchZero] at h
    by_cases hz : counter c (tr.take t) = 0
    · simp [hz] at h
      subst h
      exact ⟨hz, le_refl t, fun t' h1 h2 => absurd h1 (by omega)⟩
    · simp [hz] at h
  | succ fuel ih =>
    intro t u h
    rw [searchZero] at h
    by_cases hz : counter c (tr.take t) = 0
    · simp [hz] at h
      subst h
      exact ⟨hz, le_refl t, fun t' h1 h2 => absurd h1 (by omega)⟩
    · simp [hz] at h
      obtain ⟨h0, h1, h2⟩ := ih h
      refine ⟨h0, by omega, fun t' ht1 ht2 => ?_⟩
      rcases Nat.eq_or_lt_of_le ht1 with he | hl
      · rw [← he]; exact hz
      · exact h2 t' (by omega) ht2

theorem searchZero_immediate {tr : List TaskEv} {c t : Nat} (fuel : Nat)
    (h : counter c (tr.take t) = 0) : searchZero tr c t fuel = some t := by
  cases fuel <;> simp [searchZero, h]

theorem counterFrom_filter (c : Nat) :
    ∀ (tr : List TaskEv) (n : Nat),
      counterFrom c n (tr.filter (fun e => ctxOfEv e == c)) = counterFrom c n tr := by
  intro tr
  induction tr with
  | nil => intro n; rfl
  | cons e r ih =>
    intro n
    cases e with
    | tstart c' =>
      by_cases hc : c' = c
      · subst hc
        rw [List.filter_cons_of_pos (by simp [ctxOfEv])]
        simp only [counterFrom, if_pos rfl]
        exact ih _
      · rw [List.filter_cons_of_neg (by simp [ctxOfEv, hc])]
        simp only [counterFrom, if_neg hc]
        exact ih _
    | tend c' =>
      by_cases hc : c' = c
      · subst hc
        rw [List.filter_cons_of_pos (by simp [ctxOfEv])]
        simp only [counterFrom, if_pos rfl]
        exact ih _
      · rw [List.filter_cons_of_neg (by simp [ctxOfEv, hc])]
        simp only [counterFrom, if_neg hc]
        exact ih _

/-- C4: an `allTasks(c)` drain begun at instant `t0` resolves exactly at
the first instant at which the pending-task counter of `c` is zero:
at resolution the counter is zero, and at no earlier instant of the drain
window was it zero — so tasks started by other tasks during the window
are still awaited.  A context whose counter is already zero resolves
immediately at `t0`; the counter of a context is computed from that
context's events alone, so unrelated contexts' pending tasks never delay
it.  In the two-stage timer scenario of the test suite, the drain of
context 1 begun after taskA started resolves only after both taskA and
the taskB it spawned have ended, while the drain of idle context 2
resolves immediately. -/
theorem drain_completeness (tr : List TaskEv) (c c2 t0 u : Nat) :
    (allTasksResolveTime tr c t0 = some u →
      counter c (tr.take u) = 0 ∧ t0 ≤ u
      ∧ ∀ t', t0 ≤ t' → t' < u → counter c (tr.take t') ≠ 0)
    ∧ (t0 ≤ tr.length → counter c2 (tr.take t0) = 0 →
        allTasksResolveTime tr c2 t0 = some t0)
    ∧ counter c (tr.filter (fun e => ctxOfEv e == c)) = counter c tr
    ∧ allTasksResolveTime scenarioTrace 1 1 = some 4
    ∧ allTasksResolveTime scenarioTrace 2 1 = some 1 := by
  refine ⟨?_, ?_, counterFrom_filter c tr 0, by decide, by decide⟩
  · intro h
    rw [allTasksResolveTime] at h
    by_cases ht : t0 ≤ tr.length
    · simp only [if_pos ht] at h
      exact searchZero_some h
    · simp [ht] at h
  · intro ht hz
    rw [allTasksResolveTime, if_pos ht]
    exact searchZero_immediate _ hz

theorem mem_fire {hs : List Handler} {k : EvKind} {c : Nat}
    {la : Option String} {nv : Option Int} {e : Ev}
    (h : e ∈ fire hs k c la nv) :
    e.kind = k ∧ e.last = la ∧ e.ctx = c ∧ e.newValue = nv := by
  simp only [fire, List.mem_map, List.mem_filter] at h
  obtain ⟨a, _, rfl⟩ := h
  exact ⟨rfl, rfl, rfl, rfl⟩

theorem filter_fire_same (hs : List Handler) (k : EvKind) (c : Nat)
    (la : Option String) (nv : Option Int) :
    (fire hs k c la nv).filter (fun e => e.kind == k) = fire hs k c la nv := by
  rw [List.filter_eq_self]
  intro e he
  simp [(mem_fire he).1]

theorem filter_fire_ne (hs : List Handler) {k k' : EvKind} (c : Nat)
    (la : Option String) (nv : Option Int) (h : k ≠ k') :
    (fire hs k c la nv).filter (fun e => e.kind == k') = [] := by
  rw [List.filter_eq_nil_iff]
  intro e he
  simp [(mem_fire he).1, h]

theorem map_hid_fire (hs : List Handler) (k : EvKind) (c : Nat)
    (la : Option String) (nv : Option Int) :
    (fire hs k c la nv).map Ev.hid = regOrder k hs := by
  simp [fire, regOrder, List.map_map]

theorem idx_lt_of_sat {α : Type} (P : α → Prop) {A B : List α}
    (hB : ∀ e ∈ B, ¬ P e) {i : Nat}
    (hi : i < (A ++ B).length) (hP : P ((A ++ B).get ⟨i, hi⟩)) :
    i < A.length := by
  by_contra hge
  push_neg at hge
  have hb : i - A.length < B.length := by
    have h2 := hi
    simp only [List.length_append] at h2
    omega
  have h1 : (A ++ B).get ⟨i, hi⟩ = B.get ⟨i - A.length, hb⟩ :=
    List.get_append_right A B hge
  exact hB _ (List.get_mem B _ hb) (h1 ▸ hP)

theorem idx_ge_of_unsat {α : Type} (P : α → Prop) {A B : List α}
    (hA : ∀ e ∈ A, P e) {i : Nat}
    (hi : i < (A ++ B).length) (hP : ¬ P ((A ++ B).get ⟨i, hi⟩)) :
    A.length ≤ i := by
  by_contra hlt
  push_neg at hlt
  have h1 : (A ++ B).get ⟨i, hi⟩ = A.get ⟨i, hlt⟩ := List.get_append i hlt
  exact hP (h1 ▸ hA _ (List.get_mem A i hlt))

theorem two_seg_order {α : Type} (P : α → Prop) {A B : List α}
    (hA : ∀ e ∈ A, P e) (hB : ∀ e ∈ B, ¬ P e) {i j : Nat}
    (hi : i < (A ++ B).length) (hj : j < (A ++ B).length)
    (hPi : P ((A ++ B).get ⟨i, hi⟩)) (hPj : ¬ P ((A ++ B).get ⟨j, hj⟩)) :
    i < j :=
  lt_of_lt_of_le (idx_lt_of_sat P hB hi hPi) (idx_ge_of_unsat P hA hj hPj)

theorem evOrder_mountEvents_mount (hs : List Handler) (c : Nat) (s : BState) :
    evOrder .mount (mountEvents hs c s) = regOrder .mount hs := by
  rw [evOrder, mountEvents, List.filter_append, filter_fire_same,
    filter_fire_ne _ _ _ _ (by decide : EvKind.start ≠ .mount),
    List.append_nil, map_hid_fire]

theorem evOrder_mountEvents_start (hs : List Handler) (c : Nat) (s : BState) :
    evOrder .start (mountEvents hs c s) = regOrder .start hs := by
  rw [evOrder, mountEvents, List.filter_append, filter_fire_same,
    filter_fire_ne _ _ _ _ (by decide : EvKind.mount ≠ .start),
    List.nil_append, map_hid_fire]

theorem setOp_snd (hs : List Handler) (c : Nat) (v : Int) (s : BState) :
    (setOp hs c v s).2
      = fire hs .setE c s.lastAction (some v)
        ++ fire hs .notifyE c s.lastAction (some v) := rfl

theorem actionOp_snd (hs : List Handler) (c : Nat) (name : String) (v : Int)
    (s : BState) :
    (actionOp hs c name v s).2
      = fire hs .actionE c (some name) none
        ++ (fire hs .setE c (some name) (some v)
            ++ fire hs .notifyE c (some name) (some v)) := rfl

theorem ctx_mountEvents {hs : List Handler} {c : Nat} {s : BState} :
    ∀ e ∈ mountEvents hs c s, e.ctx = c := by
  intro e he
  rw [mountEvents] at he
  rcases List.mem_append.mp he with h | h
  · exact (mem_fire h).2.2.1
  · exact (mem_fire h).2.2.1

theorem mount_start_order {hs : List Handler} {c : Nat} {s : BState}
    {i j : Nat} (hi : i < (mountEvents hs c s).length)
    (hj : j < (mountEvents hs c s).length)
    (hki : ((mountEvents hs c s).get ⟨i, hi⟩).kind = .mount)
    (hkj : ((mountEvents hs c s).get ⟨j, hj⟩).kind = .start) : i < j :=
  two_seg_order (fun e => e.kind = .mount)
    (A := fire hs .mount c s.lastAction none)
    (B := fire hs .start c s.lastAction none)
    (fun _ he => (mem_fire he).1)
    (fun _ he => by simp [(mem_fire he).1])
    hi hj hki (fun hcon => absurd (hkj.symm.trans hcon) (by decide))

/-- C5: on a bound instance gaining its first subscriber or keep-mount
pin, all mount handlers fire, then all start handlers, each segment in
registration order, every mount event strictly before every start event;
once mounted, further subscribers fire nothing.  A value mutation fires
all set handlers before all notify handlers, each in registration order.
Losing the last subscriber with no pin fires all stop handlers in
registration order, and nothing otherwise.  Every fired event is tagged
with the transition's own context, so a handler registered once on the
definition fires once per qualifying transition per context. -/
theorem lifecycle_event_ordering (hs : List Handler) (c : Nat) (s : BState)
    (v : Int) :
    (mountCount s = 0 →
      (subscribeOp hs c s).2 = mountEvents hs c s
      ∧ (keepMountOp hs c s).2 = mountEvents hs c s
      ∧ evOrder .mount (mountEvents hs c s) = regOrder .mount hs
      ∧ evOrder .start (mountEvents hs c s) = regOrder .start hs
      ∧ ∀ i j (hi : i < (mountEvents hs c s).length)
          (hj : j < (mountEvents hs c s).length),
          ((mountEvents hs c s).get ⟨i, hi⟩).kind = .mount →
          ((mountEvents hs c s).get ⟨j, hj⟩).kind = .start → i < j)
    ∧ (mountCount s ≠ 0 →
        (subscribeOp hs c s).2 = [] ∧ (keepMountOp hs c s).2 = [])
    ∧ evOrder .setE (setOp hs c v s).2 = regOrder .setE hs
    ∧ evOrder .notifyE (setOp hs c v s).2 = regOrder .notifyE hs
    ∧ (∀ i j (hi : i < ((setOp hs c v s).2).length)
        (hj : j < ((setOp hs c v s).2).length),
        (((setOp hs c v s).2).get ⟨i, hi⟩).kind = .setE →
        (((setOp hs c v s).2).get ⟨j, hj⟩).kind = .notifyE → i < j)
    ∧ (s.subs = 1 → s.pinned = false →
        (unsubscribeOp hs c s).2 = fire hs .stop c s.lastAction none
        ∧ evOrder .stop ((unsubscribeOp hs c s).2) = regOrder .stop hs)
    ∧ (¬(s.subs = 1 ∧ s.pinned = false) → (unsubscribeOp hs c s).2 = [])
    ∧ (∀ e ∈ (subscribeOp hs c s).2, e.ctx = c)
    ∧ (∀ e ∈ (setOp hs c v s).2, e.ctx = c)
    ∧ (∀ e ∈ (unsubscribeOp hs c s).2, e.ctx = c) := by
  refine ⟨?_, ?_, ?_, ?_, ?_, ?_, ?_, ?_, ?_, ?_⟩
  · intro hm
    exact ⟨by simp [subscribeOp, hm], by simp [keepMountOp, hm],
      evOrder_mountEvents_mount hs c s, evOrder_mountEvents_start hs c s,
      fun i j hi hj hki hkj => mount_start_order hi hj hki hkj⟩
  · intro hm
    exact ⟨by simp [subscribeOp, hm], by simp [keepMountOp, hm]⟩
  · rw [setOp_snd, evOrder, List.filter_append, filter_fire_same,
      filter_fire_ne _ _ _ _ (by decide : EvKind.notifyE ≠ .setE),
      List.append_nil, map_hid_fire]
  · rw [setOp_snd, evOrder, List.filter_append,
      filter_fire_ne _ _ _ _ (by decide : EvKind.setE ≠ .notifyE),
      filter_fire_same, List.nil_append, map_hid_fire]
  · intro i j hi hj hki hkj
    exact two_seg_order (fun e => e.kind = .setE)
      (A := fire hs .setE c s.lastAction (some v))
      (B := fire hs .notifyE c s.lastAction (some v))
      (fun _ he => (mem_fire he).1)
      (fun _ he => by simp [(mem_fire he).1])
      hi hj hki (fun hcon => absurd (hkj.symm.trans hcon) (by decide))
  · intro h1 h2
    constructor
    · simp [unsubscribeOp, h1, h2]
    · simp only [unsubscribeOp, h1, h2, and_self, if_true]
      rw [evOrder, filter_fire_same, map_hid_fire]
  · intro h
    simp only [unsubscribeOp, if_neg h]
  · intro e he
    simp only [subscribeOp] at he
    by_cases hm : mountCount s = 0
    · rw [if_pos hm] at he
      exact ctx_mountEvents e he
    · rw [if_neg hm] at he
      exact absurd he (List.not_mem_nil e)
  · intro e he
    rw [setOp_snd] at he
    rcases List.mem_append.mp he with h | h
    · exact (mem_fire h).2.2.1
    · exact (mem_fire h).2.2.1
  · intro e he
    simp only [unsubscribeOp] at he
    by_cases hc : s.subs = 1 ∧ s.pinned = false
    · rw [if_pos hc] at he
      exact (mem_fire he).2.2.1
    · rw [if_neg hc] at he
      exact absurd he (List.not_mem_nil e)

theorem lifecycle_event_ordering_witness :
    (mountCount sampleState = 0 →
      (subscribeOp sampleHandlers 1 sampleState).2
          = mountEvents sampleHandlers 1 sampleState
      ∧ (keepMountOp sampleHandlers 1 sampleState).2
          = mountEvents sampleHandlers 1 sampleState
      ∧ evOrder .mount (mountEvents sampleHandlers 1 sampleState)
          = regOrder .mount sampleHandlers
      ∧ evOrder .start (mountEvents sampleHandlers 1 sampleState)
          = regOrder .start sampleHandlers
      ∧ ∀ i j (hi : i < (mountEvents sampleHandlers 1 sampleState).length)
          (hj : j < (mountEvents sampleHandlers 1 sampleState).length),
          ((mountEvents sampleHandlers 1 sampleState).get ⟨i, hi⟩).kind = .mount →
          ((mountEvents sampleHandlers 1 sampleState).get ⟨j, hj⟩).kind = .start →
          i < j)
    ∧ (mountCount sampleState ≠ 0 →
        (subscribeOp sampleHandlers 1 sampleState).2 = []
        ∧ (keepMountOp sampleHandlers 1 sampleState).2 = [])
    ∧ evOrder .setE (setOp sampleHandlers 1 7 sampleState).2
        = regOrder .setE sampleHandlers
    ∧ evOrder .notifyE (setOp sampleHandlers 1 7 sampleState).2
        = regOrder .notifyE sampleHandlers
    ∧ (∀ i j (hi : i < ((setOp sampleHandlers 1 7 sampleState).2).length)
        (hj : j < ((setOp sampleHandlers 1 7 sampleState).2).length),
        (((setOp sampleHandlers 1 7 sampleState).2).get ⟨i, hi⟩).kind = .setE →
        (((setOp sampleHandlers 1 7 sampleState).2).get ⟨j, hj⟩).kind = .notifyE →
        i < j)
    ∧ (sampleState.subs = 1 → sampleState.pinned = false →
        (unsubscribeOp sampleHandlers 1 sampleState).2
            = fire sampleHandlers .stop 1 sampleState.lastAction none
        ∧ evOrder .stop ((unsubscribeOp sampleHandlers 1 sampleState).2)
            = regOrder .stop sampleHandlers)
    ∧ (¬(sampleState.subs = 1 ∧ sampleState.pinned = false) →
        (unsubscribeOp sampleHandlers 1 sampleState).2 = [])
    ∧ (∀ e ∈ (subscribeOp sampleHandlers 1 sampleState).2, e.ctx = 1)
    ∧ (∀ e ∈ (setOp sampleHandlers 1 7 sampleState).2, e.ctx = 1)
    ∧ (∀ e ∈ (unsubscribeOp sampleHandlers 1 sampleState).2, e.ctx = 1) :=
  lifecycle_event_ordering sampleHandlers 1 sampleState 7

/-- C6: dispatching a named action fires all action handlers (tagged with
the action's name, in registration order) before any of the mutation's
set or notify handlers, and at the moment the set and notify handlers
fire the bound instance's last-action tag equals the dispatched action's
name — both in the fired events' observed tag and in the resulting
instance state. -/
theorem action_dispatch (hs : List Handler) (c : Nat) (name : String)
    (v : Int) (s : BState) :
    (actionOp hs c name v s).1.lastAction = some name
    ∧ (∀ e ∈ (actionOp hs c name v s).2,
        (e.kind = .setE ∨ e.kind = .notifyE) → e.last = some name)
    ∧ (∀ e ∈ (actionOp hs c name v s).2,
        e.kind = .actionE → e.last = some name)
    ∧ evOrder .actionE (actionOp hs c name v s).2 = regOrder .actionE hs
    ∧ (∀ i j (hi : i < ((actionOp hs c name v s).2).length)
        (hj : j < ((actionOp hs c name v s).2).length),
        (((actionOp hs c name v s).2).get ⟨i, hi⟩).kind = .actionE →
        ((((actionOp hs c name v s).2).get ⟨j, hj⟩).kind = .setE
          ∨ (((actionOp hs c name v s).2).get ⟨j, hj⟩).kind = .notifyE) →
        i < j) := by
  refine ⟨rfl, ?_, ?_, ?_, ?_⟩
  · intro e he _
    rw [actionOp_snd] at he
    rcases List.mem_append.mp he with h | h
    · exact (mem_fire h).2.1
    · rcases List.mem_append.mp h with h' | h'
      · exact (mem_fire h').2.1
      · exact (mem_fire h').2.1
  · intro e he _
    rw [actionOp_snd] at he
    rcases List.mem_append.mp he with h | h
    · exact (mem_fire h).2.1
    · rcases List.mem_append.mp h with h' | h'
      · exact (mem_fire h').2.1
      · exact (mem_fire h').2.1
  · rw [actionOp_snd, evOrder, List.filter_append, List.filter_append,
      filter_fire_same,
      filter_fire_ne _ _ _ _ (by decide : EvKind.setE ≠ .actionE),
      filter_fire_ne _ _ _ _ (by decide : EvKind.notifyE ≠ .actionE)]
    simp [map_hid_fire]
  · intro i j hi hj hki hkj
    exact two_seg_order (fun e => e.kind = .actionE)
      (A := fire hs .actionE c (some name) none)
      (B := fire hs .setE c (some name) (some v)
            ++ fire hs .notifyE c (some name) (some v))
      (fun _ he => (mem_fire he).1)
      (fun _ he => by
        rcases List.mem_append.mp he with h | h
        · simp [(mem_fire h).1]
        · simp [(mem_fire h).1])
      hi hj hki (fun hcon => by
        rcases hkj with h | h <;> exact absurd (h.symm.trans hcon) (by decide))

theorem action_dispatch_witness :
    (actionOp sampleHandlers 1 "change" 7 sampleState).1.lastAction
        = some "change"
    ∧ (∀ e ∈ (actionOp sampleHandlers 1 "change" 7 sampleState).2,
        (e.kind = .setE ∨ e.kind = .notifyE) → e.last = some "change")
    ∧ (∀ e ∈ (actionOp sampleHandlers 1 "change" 7 sampleState).2,
        e.kind = .actionE → e.last = some "change")
    ∧ evOrder .actionE (actionOp sampleHandlers 1 "change" 7 sampleState).2
        = regOrder .actionE sampleHandlers
    ∧ (∀ i j
        (hi : i < ((actionOp sampleHandlers 1 "change" 7 sampleState).2).length)
        (hj : j < ((actionOp sampleHandlers 1 "change" 7 sampleState).2).length),
        (((actionOp sampleHandlers 1 "change" 7 sampleState).2).get
            ⟨i, hi⟩).kind = .actionE →
        ((((actionOp sampleHandlers 1 "change" 7 sampleState).2).get
            ⟨j, hj⟩).kind = .setE
          ∨ (((actionOp sampleHandlers 1 "change" 7 sampleState).2).get
              ⟨j, hj⟩).kind = .notifyE) →
        i < j) :=
  action_dispatch sampleHandlers 1 "change" 7 sampleState

theorem drain_completeness_witness :
    ((allTasksResolveTime scenarioTrace 1 1 = some 4 →
      counter 1 (scenarioTrace.take 4) = 0 ∧ 1 ≤ 4
      ∧ ∀ t', 1 ≤ t' → t' < 4 → counter 1 (scenarioTrace.take t') ≠ 0)
    ∧ (1 ≤ scenarioTrace.length → counter 2 (scenarioTrace.take 1) = 0 →
        allTasksResolveTime scenarioTrace 2 1 = some 1)
    ∧ counter 1 (scenarioTrace.filter (fun e => ctxOfEv e == 1))
        = counter 1 scenarioTrace
    ∧ allTasksResolveTime scenarioTrace 1 1 = some 4
    ∧ allTasksResolveTime scenarioTrace 2 1 = some 1) :=
  drain_completeness scenarioTrace 1 2 1 4

/-! ### Serializer lemmas -/

theorem serEntry_some_of {w : World} {c : Nat} {d : StoreDef} {n : String}
    (hn : d.name = some n) (hb : isBound w d c = true) :
    serEntry w c d = some (n, valueOf w d c) := by
  simp [serEntry, hn, hb]

theorem of_serEntry_some {w : World} {c : Nat} {d : StoreDef}
    {e : String × Int} (h : serEntry w c d = some e) :
    d.name = some e.1 ∧ isBound w d c = true ∧ e.2 = valueOf w d c := by
  cases e with
  | mk a b =>
    cases hn : d.name with
    | none => simp [serEntry, hn] at h
    | some n' =>
      by_cases hb : isBound w d c
      · simp [serEntry, hn, hb] at h
        exact ⟨congrArg some h.1, hb, h.2.symm⟩
      · simp [serEntry, hn, hb] at h

theorem resolve_self {defs : List StoreDef} {d : StoreDef} {n : String}
    (hname : ∀ d1 ∈ defs, ∀ d2 ∈ defs, ∀ m, d1.name = some m →
      d2.name = some m → d1 = d2)
    (hd : d ∈ defs) (hn : d.name = some n) :
    defs.find? (fun d' => d'.name == some n) = some d := by
  have hsome : (defs.find? (fun d' => d'.name == some n)).isSome :=
    List.find?_isSome.mpr ⟨d, hd, by simp [hn]⟩
  obtain ⟨d0, hd0⟩ := Option.isSome_iff_exists.mp hsome
  have hp : d0.name = some n := by simpa using List.find?_some hd0
  have heq : d0 = d := hname d0 (List.mem_of_find?_eq_some hd0) d hd n hp hn
  rw [hd0, heq]

theorem applyAll_cons (defs : List StoreDef) (w : World) (c : Nat)
    (e : String × Int) (rest : List (String × Int)) :
    applySerializedContext defs w c (e :: rest)
      = applySerializedContext defs (applyEntry defs c w e) c rest := rfl

theorem applyAll_append (defs : List StoreDef) (w : World) (c : Nat)
    (s1 s2 : List (String × Int)) :
    applySerializedContext defs w c (s1 ++ s2)
      = applySerializedContext defs (applySerializedContext defs w c s1) c s2 := by
  simp [applySerializedContext, List.foldl_append]

theorem valueOf_applyEntry_untouched {defs : List StoreDef} {c2 c' : Nat}
    {d : StoreDef} {w : World} {e : String × Int}
    (h : ∀ d0, defs.find? (fun d' => d'.name == some e.1) = some d0 →
      d0.sid ≠ d.sid) :
    valueOf (applyEntry defs c2 w e) d c' = valueOf w d c' := by
  cases hr : defs.find? (fun d' => d'.name == some e.1) with
  | none => simp only [applyEntry, hr]
  | some d0 =>
    simp only [applyEntry, hr]
    have hne : (d0.sid, c2) ≠ (d.sid, c') := by
      intro hpair
      exact h d0 hr (congrArg Prod.fst hpair)
    rw [valueOf_setValue_ne _ d _ hne]
    exact valueOf_of_vals_eq d c' (bind_vals w d0 c2)

theorem valueOf_applyAll_untouched {defs : List StoreDef} {c2 c' : Nat}
    {d : StoreDef} :
    ∀ (snap : List (String × Int)) (w : World),
      (∀ e ∈ snap, ∀ d0,
        defs.find? (fun d' => d'.name == some e.1) = some d0 →
          d0.sid ≠ d.sid) →
      valueOf (applySerializedContext defs w c2 snap) d c' = valueOf w d c' := by
  intro snap
  induction snap with
  | nil => intro w _; rfl
  | cons e rest ih =>
    intro w h
    rw [applyAll_cons, ih _ (fun e' he' => h e' (List.mem_cons_of_mem _ he'))]
    exact valueOf_applyEntry_untouched (h e (List.mem_cons_self _ _))

theorem valueOf_applyAll_found {defs : List StoreDef} {c2 : Nat}
    {d : StoreDef} {n : String} {v : Int} {rest : List (String × Int)}
    {w : World}
    (hres : defs.find? (fun d' => d'.name == some n) = some d)
    (hrest : ∀ e ∈ rest, ∀ d0,
      defs.find? (fun d' => d'.name == some e.1) = some d0 → d0.sid ≠ d.sid) :
    valueOf (applySerializedContext defs w c2 ((n, v) :: rest)) d c2 = v := by
  rw [applyAll_cons, valueOf_applyAll_untouched rest _ hrest]
  simp only [applyEntry, hres]
  exact valueOf_setValue_self _ d c2 v

/-- C7: `serializeContext` maps exactly the names of currently bound,
named store definitions to their current values; applying the snapshot to
another context gives every named store bound under `c1` the value it had
under `c1` at serialization time; named-but-unbound and unnamed stores
are untouched under `c2` (so an unbound one keeps its default value); and
a snapshot key matching no named store definition is ignored without
error, leaving the world unchanged. -/
theorem serialization_round_trip (defs : List StoreDef) (d : StoreDef)
    (w w2 : World) (c1 c2 : Nat) (n : String)
    (hnodup : defs.Nodup)
    (hsid : ∀ d1 ∈ defs, ∀ d2 ∈ defs, d1.sid = d2.sid → d1 = d2)
    (hname : ∀ d1 ∈ defs, ∀ d2 ∈ defs, ∀ m, d1.name = some m →
      d2.name = some m → d1 = d2)
    (hd : d ∈ defs) :
    (∀ e, e ∈ serializeContext defs w c1 ↔
       ∃ d' ∈ defs, d'.name = some e.1 ∧ isBound w d' c1 = true
         ∧ e.2 = valueOf w d' c1)
    ∧ (d.name = some n → isBound w d c1 = true →
        valueOf (applySerializedContext defs w2 c2 (serializeContext defs w c1))
          d c2 = valueOf w d c1)
    ∧ (d.name = some n → isBound w d c1 = false →
        valueOf (applySerializedContext defs w2 c2 (serializeContext defs w c1))
          d c2 = valueOf w2 d c2)
    ∧ (d.name = none →
        valueOf (applySerializedContext defs w2 c2 (serializeContext defs w c1))
          d c2 = valueOf w2 d c2)
    ∧ (∀ k v, (∀ d' ∈ defs, d'.name ≠ some k) →
        applySerializedContext defs w2 c2 [(k, v)] = w2) := by
  refine ⟨?_, ?_, ?_, ?_, ?_⟩
  · intro e
    rw [serializeContext, List.mem_filterMap]
    constructor
    · rintro ⟨d', hd', hf⟩
      exact ⟨d', hd', of_serEntry_some hf⟩
    · rintro ⟨d', hd', hn', hb', hv'⟩
      refine ⟨d', hd', ?_⟩
      cases e with
      | mk a b =>
        rw [serEntry_some_of hn' hb', ← hv']
  · intro hn hb
    obtain ⟨dpre, dpost, hsplit⟩ := List.append_of_mem hd
    subst hsplit
    have hnotpost : d ∉ dpost :=
      (List.nodup_cons.mp hnodup.of_append_right).1
    have hdm : d ∈ dpre ++ d :: dpost :=
      List.mem_append_right _ (List.mem_cons_self _ _)
    have hcons : (d :: dpost).filterMap (serEntry w c1)
        = (n, valueOf w d c1) :: dpost.filterMap (serEntry w c1) := by
      rw [List.filterMap_cons, serEntry_some_of hn hb]
    rw [serializeContext, List.filterMap_append, hcons, applyAll_append]
    refine valueOf_applyAll_found (resolve_self hname hdm hn) ?_
    intro e he d0 hfind hsidEq
    obtain ⟨d', hd'post, hser⟩ := List.mem_filterMap.mp he
    obtain ⟨hn', hb', _⟩ := of_serEntry_some hser
    have hd0 : d0 = d :=
      hsid d0 (List.mem_of_find?_eq_some hfind) d hdm hsidEq
    have hd0name : d0.name = some e.1 := by simpa using List.find?_some hfind
    rw [hd0, hn] at hd0name
    have he1 : e.1 = n := (Option.some.inj hd0name).symm
    have hd'mem : d' ∈ dpre ++ d :: dpost :=
      List.mem_append_right _ (List.mem_cons_of_mem _ hd'post)
    have : d' = d := hname d' hd'mem d hdm n (he1 ▸ hn') hn
    exact hnotpost (this ▸ hd'post)
  · intro hn hb
    apply valueOf_applyAll_untouched
    intro e he d0 hfind hsidEq
    obtain ⟨d', hd'mem, hser⟩ := List.mem_filterMap.mp he
    obtain ⟨hn', hb', _⟩ := of_serEntry_some hser
    have hd0 : d0 = d :=
      hsid d0 (List.mem_of_find?_eq_some hfind) d hd hsidEq
    have hd0name : d0.name = some e.1 := by simpa using List.find?_some hfind
    rw [hd0, hn] at hd0name
    have he1 : e.1 = n := (Option.some.inj hd0name).symm
    have : d' = d := hname d' hd'mem d hd n (he1 ▸ hn') hn
    rw [this] at hb'
    rw [hb] at hb'
    exact Bool.false_ne_true hb'
  · intro hn
    apply valueOf_applyAll_untouched
    intro e he d0 hfind hsidEq
    have hd0 : d0 = d :=
      hsid d0 (List.mem_of_find?_eq_some hfind) d hd hsidEq
    have hd0name : d0.name = some e.1 := by simpa using List.find?_some hfind
    rw [hd0, hn] at hd0name
    exact Option.noConfusion hd0name
  · intro k v hnone
    have hfindnone : defs.find? (fun d' => d'.name == some k) = none :=
      List.find?_eq_none.mpr (fun d' hd' => by simp [hnone d' hd'])
    simp [applySerializedContext, applyEntry, hfindnone]

theorem serialization_round_trip_witness :
    (∀ e, e ∈ serializeContext sampleDefs sampleWorld 1 ↔
       ∃ d' ∈ sampleDefs, d'.name = some e.1
         ∧ isBound sampleWorld d' 1 = true ∧ e.2 = valueOf sampleWorld d' 1)
    ∧ (sampleNamedDef.name = some "serialized" →
        isBound sampleWorld sampleNamedDef 1 = true →
        valueOf
          (applySerializedContext sampleDefs initWorld 2
            (serializeContext sampleDefs sampleWorld 1))
          sampleNamedDef 2 = valueOf sampleWorld sampleNamedDef 1)
    ∧ (sampleNamedDef.name = some "serialized" →
        isBound sampleWorld sampleNamedDef 1 = false →
        valueOf
          (applySerializedContext sampleDefs initWorld 2
            (serializeContext sampleDefs sampleWorld 1))
          sampleNamedDef 2 = valueOf initWorld sampleNamedDef 2)
    ∧ (sampleNamedDef.name = none →
        valueOf
          (applySerializedContext sampleDefs initWorld 2
            (serializeContext sampleDefs sampleWorld 1))
          sampleNamedDef 2 = valueOf initWorld sampleNamedDef 2)
    ∧ (∀ k v, (∀ d' ∈ sampleDefs, d'.name ≠ some k) →
        applySerializedContext sampleDefs initWorld 2 [(k, v)] = initWorld) :=
  serialization_round_trip sampleDefs sampleNamedDef sampleWorld initWorld
    1 2 "serialized" (by decide) (by decide)
    (by
      intro d1 h1 d2 h2 m hm1 hm2
      simp only [sampleDefs, sampleNamedDef, samplePrivateDef,
        List.mem_cons, List.not_mem_nil, or_false] at h1 h2
      rcases h1 with rfl | rfl <;> rcases h2 with rfl | rfl
      · rfl
      · simp at hm2
      · simp at hm1
      · rfl)
    (by decide)

/-! ### clean-stores theorems -/

/-- C8: with the runtime mode set to production, `cleanStores` throws an
error with a descriptive (non-empty) message for every argument list, and
`resetContext` likewise for every state and handle. -/
theorem reset_in_production_error (stores : List (Option CStore))
    (w : World) (c : Option Nat) :
    (∃ msg, cleanStores "production" stores = .error msg ∧ msg ≠ "")
    ∧ (∃ msg, resetContext "production" w c = .error msg ∧ msg ≠ "") := by
  constructor
  · exact ⟨"cleanStores() can be used only during development or tests",
      by simp [cleanStores], by simp⟩
  · exact ⟨"resetContext() can be used only during development or tests",
      by simp [resetContext], by simp⟩

/-- C9: in any non-production mode, `cleanStores` succeeds and processes
every truthy store in its argument list: the store's `mocked` marker is
removed and its hidden `clean`-keyed reset capability is invoked exactly
once (with no arguments), elementwise along the argument list. -/
theorem cleanStores_dev (env : String) (stores : List (Option CStore))
    (h : env ≠ "production") :
    cleanStores env stores = .ok (stores.map (Option.map cleanOne))
    ∧ (∀ s : CStore, cleanOne s = ⟨false, s.cleanCalls + 1⟩)
    ∧ (∀ i (hi : i < stores.length) (s : CStore),
        stores.get ⟨i, hi⟩ = some s →
        (stores.map (Option.map cleanOne)).get ⟨i, by simpa using hi⟩
          = some ⟨false, s.cleanCalls + 1⟩) := by
  refine ⟨?_, fun s => rfl, ?_⟩
  · rw [cleanStores, if_neg h]
    congr 1
    apply List.map_congr_left
    intro o _
    cases o <;> rfl
  · intro i hi s hs
    rw [List.get_map, hs]
    rfl

theorem cleanStores_dev_witness :
    ("test" : String) ≠ "production"
    ∧ (cleanStores "test" [some ⟨true, 0⟩, none]
        = .ok ([some ⟨true, 0⟩, none].map (Option.map cleanOne))
      ∧ (∀ s : CStore, cleanOne s = ⟨false, s.cleanCalls + 1⟩)
      ∧ (∀ i (hi : i < ([some ⟨true, 0⟩, none] : List (Option CStore)).length)
          (s : CStore),
          ([some ⟨true, 0⟩, none] : List (Option CStore)).get ⟨i, hi⟩ = some s →
          (([some ⟨true, 0⟩, none] : List (Option CStore)).map
              (Option.map cleanOne)).get ⟨i, by simpa using hi⟩
            = some ⟨false, s.cleanCalls + 1⟩)) :=
  ⟨by decide, cleanStores_dev "test" [some ⟨true, 0⟩, none] (by decide)⟩

/-- C10: in production mode the guard throws before the argument loop
runs — `cleanStores` never returns a processed store list, so no
`mocked` marker is deleted and no clean capability is invoked; and in
non-production mode a falsy (none) argument is skipped without error and
without any invocation, remaining untouched in the result. -/
theorem cleanStores_guard_atomic (stores rest : List (Option CStore))
    (env : String) (h : env ≠ "production") :
    cleanStores "production" stores
        = .error "cleanStores() can be used only during development or tests"
    ∧ (∀ out, cleanStores "production" stores ≠ .ok out)
    ∧ cleanStores env (none :: rest)
        = .ok (none :: rest.map (Option.map cleanOne)) := by
  refine ⟨by simp [cleanStores], ?_, ?_⟩
  · intro out hout
    rw [cleanStores] at hout
    simp at hout
  · rw [cleanStores, if_neg h]
    congr 1
    simp only [List.map_cons, Option.map_none']
    congr 1
    apply List.map_congr_left
    intro o _
    cases o <;> rfl

theorem cleanStores_guard_atomic_witness :
    ("dev" : String) ≠ "production"
    ∧ (cleanStores "production" [some ⟨true, 0⟩]
        = .error "cleanStores() can be used only during development or tests"
      ∧ (∀ out, cleanStores "production" [some ⟨true, 0⟩] ≠ .ok out)
      ∧ cleanStores "dev" (none :: [some ⟨false, 3⟩])
          = .ok (none :: [some ⟨false, 3⟩].map (Option.map cleanOne))) :=
  ⟨by decide, cleanStores_guard_atomic [some ⟨true, 0⟩] [some ⟨false, 3⟩]
    "dev" (by decide)⟩

end Nanostores
